import Mathlib

/-!
Verification of the graph reconstruction and serialization engine of
onnx-chainer (src/onnx_chainer/export.py).

The export pipeline is shallowly embedded: tensor identities are the
CPython object identities str(id(x)) used by the source, modelled as the
Nat field oid of a TensorObj (Python guarantees id is injective on
simultaneously-live objects; str is injective on ids, so we work with the
Nat directly).  The chainer autodiff engine, the per-operator converter
registry (onnx_chainer.functions), and the onnx checker/serializer are
external collaborators of this file's source: the backward traversal is
given to export as the list of operator invocations the function hook
observes (in backward-traversal order), the registry is a parameter, and
the checker calls (checker.check_node / check_graph / check_model) are
pure validations with no effect on the constructed data, so they are not
modelled.
-/

set_option maxRecDepth 10000

namespace OnnxChainer

/-- A runtime tensor object: a chainer Variable, Parameter or VariableNode.
`oid` models the CPython object identity `id(x)`; `shape` and `dtype` model
the `.shape` and `.dtype` attributes (dtype as the numeric code that
NP_TYPE_TO_TENSOR_TYPE assigns to the numpy dtype). -/
structure TensorObj where
  oid : Nat
  shape : List Nat
  dtype : Nat
deriving DecidableEq

/-- A chainer Parameter: its Variable object together with the data buffer
(`parameter.array`, flattened). -/
structure Param where
  var : TensorObj
  data : List Int
deriving DecidableEq

/-- An ONNX NodeProto as produced by a converter: operator type, ordered
input-name list, ordered output-name list, attribute map. -/
structure Node where
  opType : String
  inputs : List Nat
  outputs : List Nat
  attrs : List (String × Int)
deriving DecidableEq

/-- An ONNX TensorProto (an initializer value). -/
structure TensorProto where
  name : Nat
  dims : List Nat
  dataType : Nat
  rawData : List Int
deriving DecidableEq

/-- An ONNX ValueInfoProto (declared input/output tensor metadata). -/
structure ValueInfo where
  name : Nat
  elemType : Nat
  shape : List Nat
deriving DecidableEq

/-- One input slot of a captured function at backward time, as seen by
ONNXExport.backward_postprocess.  The slot `i` is a VariableNode;
`i.get_variable_or_none()` either returns None (the owning Variable was
garbage collected: constructor `node`, the source then uses the
VariableNode object itself) or returns the live Variable (constructor
`var`, with the result of the `isinstance(var, chainer.Parameter)` test). -/
inductive InSlot where
  | node (t : TensorObj)
  | var (t : TensorObj) (isParam : Bool)
deriving DecidableEq

/-- The object whose identity names the slot (the VariableNode in the dead
case, the Variable itself in the live case). -/
def slotObj : InSlot → TensorObj
  | .node t => t
  | .var t _ => t

/-- The name `str(id(...))` the source assigns to the slot. -/
def slotName (s : InSlot) : Nat := (slotObj s).oid

/-- Whether the slot resolved to a live chainer.Parameter. -/
def isParamSlot : InSlot → Bool
  | .node _ => false
  | .var _ b => b

/-- A captured operator invocation: the (FunctionAdapter-unwrapped)
function's class name, its input VariableNodes as resolved at backward
time, and its output VariableNodes (`o()` for `o` in function.outputs). -/
structure FuncInst where
  name : String
  inputs : List InSlot
  outputs : List TensorObj
deriving DecidableEq

/-- What one converter invocation returns: zero or more NodeProtos, plus
the parameters it appended to the shared `parameters` list. -/
structure ConvResult where
  nodes : List Node
  newParams : List Param
deriving DecidableEq

/-- The external converter registry: `convert_<name>` attributes of the
onnx_chainer.functions module.  A converter receives the function
instance, the resolved input and output name lists, and the current
additional-parameters list. -/
def Registry : Type :=
  String → Option (FuncInst → List Nat → List Nat → List Param → ConvResult)

/-- External environment of one export call: the converter registry plus
the ambient chainer.__version__ and onnx.IR_VERSION values. -/
structure Env where
  reg : Registry
  chainerVersion : String
  irVersion : Nat

/-- create_node (export.py lines 45-56): look up convert_<func_name>; if
absent raise ValueError('<name> is not supported.'), else invoke it.
checker.check_node is an external structural validation with no effect on
the returned nodes and is not modelled. -/
def create_node (reg : Registry) (func_name : String) (cand : FuncInst)
    (input_names output_names : List Nat) (parameters : List Param) :
    Except String ConvResult :=
  match reg func_name with
  | none => .error (func_name ++ " is not supported.")
  | some converter => .ok (converter cand input_names output_names parameters)

/-- Keys of the network_inputs dict (a CPython insertion-ordered dict,
modelled as an insertion-ordered association list). -/
def dictKeys (d : List (Nat × TensorObj)) : List Nat := d.map (fun kv => kv.1)

/-- `d[k] = v` on a CPython dict: update in place if the key is present
(keeping its position), else append. -/
def dictSet (d : List (Nat × TensorObj)) (k : Nat) (v : TensorObj) :
    List (Nat × TensorObj) :=
  if k ∈ dictKeys d then d.map (fun kv => if kv.1 = k then (k, v) else kv)
  else d ++ [(k, v)]

/-- `if k not in d: d[k] = v` on a CPython dict. -/
def dictSetIfAbsent (d : List (Nat × TensorObj)) (k : Nat) (v : TensorObj) :
    List (Nat × TensorObj) :=
  if k ∈ dictKeys d then d else d ++ [(k, v)]

/-- State of one ONNXExport function-hook session (export.py lines 59-64).
`produced` is a history variable not present in the source: it records
every NodeProto a converter returned (i.e. every node offered to the
dedup-append loop of lines 88-90), and is used only to state the
deduplication property. -/
structure ONNXExportState where
  graph : List Node
  additional_parameters : List Param
  network_inputs : List (Nat × TensorObj)
  produced : List Node
deriving DecidableEq

/-- The freshly constructed ONNXExport session state. -/
def initState : ONNXExportState := ⟨[], [], [], []⟩

/-- The input-resolution loop of backward_postprocess (lines 70-83):
returns the accumulated input_names and the updated network_inputs dict.
A dead-Variable slot is named by its VariableNode id and registered if
absent; a live Parameter is named by its id and not registered; any other
live Variable is named by its id and registered unconditionally. -/
def processInputs :
    List InSlot → List Nat → List (Nat × TensorObj) →
      List Nat × List (Nat × TensorObj)
  | [], acc, d => (acc, d)
  | .node t :: rest, acc, d =>
      processInputs rest (acc ++ [t.oid]) (dictSetIfAbsent d t.oid t)
  | .var t true :: rest, acc, d =>
      processInputs rest (acc ++ [t.oid]) d
  | .var t false :: rest, acc, d =>
      processInputs rest (acc ++ [t.oid]) (dictSet d t.oid t)

/-- The dedup-append loop of backward_postprocess (lines 88-90): append
each returned node to the graph list unless an equal node is already
there. -/
def appendDedup : List Node → List Node → List Node
  | g, [] => g
  | g, n :: ns => appendDedup (if n ∈ g then g else g ++ [n]) ns

/-- ONNXExport.backward_postprocess (lines 66-90) for one captured
function invocation. -/
def backward_postprocess (reg : Registry) (st : ONNXExportState)
    (f : FuncInst) : Except String ONNXExportState :=
  match processInputs f.inputs [] st.network_inputs with
  | (input_names, nin) =>
    match create_node reg f.name f input_names (f.outputs.map fun o => o.oid)
        st.additional_parameters with
    | .error e => .error e
    | .ok r =>
        .ok { graph := appendDedup st.graph r.nodes,
              additional_parameters := st.additional_parameters ++ r.newParams,
              network_inputs := nin,
              produced := st.produced ++ r.nodes }

/-- The whole hook-attached backward traversal: backward_postprocess fires
once per captured function, in backward-traversal order; an exception
aborts the traversal (the with-statement still detaches the hook). -/
def captureTrace (reg : Registry) :
    List FuncInst → ONNXExportState → Except String ONNXExportState
  | [], st => .ok st
  | f :: fs, st =>
    match backward_postprocess reg st f with
    | .error e => .error e
    | .ok st2 => captureTrace reg fs st2

/-- A Python value passed as the `args` argument of export. -/
inductive PyVal where
  | listV (xs : List PyVal)
  | dictV (kvs : List (String × PyVal))
  | tensorV (t : TensorObj)
  | otherV (n : Nat)

/-- How the forward evaluation is invoked: `model(*args)` or
`model(**args)`. -/
inductive ForwardCall where
  | positional (xs : List PyVal)
  | keyword (kvs : List (String × PyVal))

/-- Line 133: `args = list(args) if isinstance(args, (list, tuple)) else
[args]`.  (Lines 134-136 then wrap bare arrays into chainer.Variables;
that per-element conversion does not affect the control flow and is not
modelled.) -/
def normalizeArgs : PyVal → PyVal
  | .listV xs => .listV xs
  | v => .listV [v]

/-- Lines 139-146: dispatch the forward computation on the type of the
(already normalized) args, raising ValueError for anything that is
neither a list nor a dict. -/
def dispatchForward (v : PyVal) : Except String ForwardCall :=
  match normalizeArgs v with
  | .listV xs => .ok (.positional xs)
  | .dictV kvs => .ok (.keyword kvs)
  | _ => .error ("The args argument should be a list or dict.")

/-- The collection of Variables the model's forward call returned. -/
inductive Outputs where
  | single (v : TensorObj)
  | col (vs : List TensorObj)
  | dict (kvs : List (String × TensorObj))
deriving DecidableEq

/-- One export session's view of the model (an external callable): its
registered parameters in model.params() iteration order, the outputs its
forward call returns, and the operator invocations a backward traversal
of those outputs makes the function hook observe, in backward order. -/
structure Model where
  params : List Param
  forwardOutputs : Outputs
  trace : List FuncInst
deriving DecidableEq

/-- Lines 156-164: backward (and hence the capture hook) runs only when
the forward result is a list/tuple of Variables or a single Variable; a
dict-valued result matches neither isinstance test, so nothing is
traversed. -/
def effectiveTrace (m : Model) : List FuncInst :=
  match m.forwardOutputs with
  | .dict _ => []
  | .col _ => m.trace
  | .single _ => m.trace

/-- Lines 185-188: a dict output collection is reduced to its value
sequence, a single Variable is treated as a one-element collection. -/
def outputList : Outputs → List TensorObj
  | .dict kvs => kvs.map (fun kv => kv.2)
  | .col vs => vs
  | .single v => [v]

/-- The scalar-shape normalization the source applies twice: `array[None]`
for a rank-0 array in convert_parameter (lines 40-41) and
`(1,) if param.shape == () else param.shape` (line 152). -/
def normalizeShape (s : List Nat) : List Nat := if s = [] then [1] else s

/-- convert_parameter (lines 33-42): build the initializer TensorProto,
named by the parameter's object identity, with a rank-0 array expanded to
shape (1,). -/
def convert_parameter (p : Param) : TensorProto :=
  { name := p.var.oid, dims := normalizeShape p.var.shape,
    dataType := p.var.dtype, rawData := p.data }

/-- Input metadata for a parameter (lines 152-154 and 170-173). -/
def paramValueInfo (p : Param) : ValueInfo :=
  { name := p.var.oid, elemType := p.var.dtype,
    shape := normalizeShape p.var.shape }

/-- Input metadata for a discovered network input (lines 176-178): no
shape normalization is applied here. -/
def netValueInfo (t : TensorObj) : ValueInfo :=
  { name := t.oid, elemType := t.dtype, shape := t.shape }

/-- Output metadata (lines 189-191): named by the id of the returned
Variable object itself. -/
def outValueInfo (t : TensorObj) : ValueInfo :=
  { name := t.oid, elemType := t.dtype, shape := t.shape }

/-- An ONNX GraphProto as assembled by helper.make_graph (lines 196-198). -/
structure Graph where
  nodes : List Node
  name : String
  inputs : List ValueInfo
  outputs : List ValueInfo
  initializer : List TensorProto
deriving DecidableEq

/-- An ONNX ModelProto as assembled by helper.make_model (lines 202-207). -/
structure ModelProto where
  graph : Graph
  producer_name : String
  producer_version : String
  ir_version : Nat
deriving DecidableEq

/-- The mutable state outside the export session that the source touches:
the process-wide chainer.config.enable_backprop flag (line 128), the
model's device placement (model.to_cpu(), line 130), and the model's
parameter data buffers (readable through model.params()). -/
structure World where
  enableBackprop : Bool
  modelOnCpu : Bool
  paramBuffers : List (Nat × List Int)
deriving DecidableEq

/-- Lines 126-130: the setup statements of export.
chainer.config.enable_backprop is assigned True (and never restored) and
the model is moved to CPU; parameter buffers are not written. -/
def exportWorld (w : World) : World :=
  { w with enableBackprop := true, modelOnCpu := true }

/-- The destination argument `filename`: None, a path string, or a
file-like object. -/
inductive Dest where
  | nofile
  | path (s : String)
  | stream
deriving DecidableEq

/-- A file-system or stream write performed at lines 211-218. -/
inductive FileWrite where
  | binFile (p : String)
  | textFile (p : String)
  | streamWrite
deriving DecidableEq

/-- Lines 211-218: the serialized model is written to a path (plus a
.txt dump when save_text), or to a writable stream, or nowhere. -/
def writesFor : Dest → Bool → List FileWrite
  | .path s, true => [.binFile s, .textFile (s ++ ".txt")]
  | .path s, false => [.binFile s]
  | .stream, _ => [.streamWrite]
  | .nofile, _ => []

/-- The assembly stage (lines 148-207): parameter initializers and input
metadata (148-154), additional-parameter metadata (166-173), discovered
network-input metadata (175-178), reversal of the node list (181), output
metadata (184-191), the export_params switch (193-194), and the graph and
model wrappers (196-207). -/
def assemble (env : Env) (m : Model) (export_params : Bool)
    (graph_name : String) (st : ONNXExportState) : ModelProto :=
  let initializers :=
    (m.params ++ st.additional_parameters).map convert_parameter
  let input_tensors :=
    (m.params ++ st.additional_parameters).map paramValueInfo
      ++ st.network_inputs.map (fun kv => netValueInfo kv.2)
  let output_tensors := (outputList m.forwardOutputs).map outValueInfo
  { graph := { nodes := st.graph.reverse, name := graph_name,
               inputs := input_tensors, outputs := output_tensors,
               initializer := if export_params then initializers else [] },
    producer_name := "Chainer",
    producer_version := env.chainerVersion,
    ir_version := env.irVersion }

/-- The value-level pipeline of export (lines 133-209): argument dispatch,
forward evaluation (external; its recorded history is m.trace), the
hook-attached backward traversal, and graph/model assembly.
checker.check_graph and checker.check_model (lines 200, 209) are external
pure validations and are not modelled. -/
def exportResult (env : Env) (m : Model) (args : PyVal)
    (export_params : Bool) (graph_name : String) : Except String ModelProto :=
  match dispatchForward args with
  | .error e => .error e
  | .ok _ =>
    match captureTrace env.reg (effectiveTrace m) initState with
    | .error e => .error e
    | .ok st => .ok (assemble env m export_params graph_name st)

/-- The outcome of one export call: the returned (or raised) value, the
ambient mutable state afterwards, and the writes performed.  The write
statements are the last of the function body, so an exception anywhere in
the pipeline leaves no file behind. -/
structure ExportOutcome where
  result : Except String ModelProto
  world : World
  writes : List FileWrite

/-- export (export.py lines 93-220); named exportModel here because
`export` is a Lean keyword. -/
def exportModel (env : Env) (m : Model) (args : PyVal) (w : World) (dest : Dest)
    (export_params : Bool) (graph_name : String) (save_text : Bool) :
    ExportOutcome :=
  { result := exportResult env m args export_params graph_name,
    world := exportWorld w,
    writes := match exportResult env m args export_params graph_name with
              | .ok _ => writesFor dest save_text
              | .error _ => [] }

/-!
Concrete sessions.

The first one replays the spec scenario `y = a * x + b` as chainer
actually records it: `a`, `b` are Parameters of the model (live at
backward time), `x` is a user-held Variable (live, not a Parameter), the
intermediate product `t = a * x` is a temporary whose Variable has been
garbage collected by the time backward runs, so its slot resolves through
its VariableNode, and the declared output is the Variable object `y`
(line 191 uses `id(output)` on the Variable, not on its VariableNode).
Backward visits Add first, then Mul.
-/

/-- The Parameter a's Variable object. -/
def va : TensorObj := ⟨1, [2, 3], 1⟩

/-- The Parameter b's Variable object. -/
def vb : TensorObj := ⟨2, [2, 3], 1⟩

/-- The network input x (a live, non-Parameter Variable). -/
def vx : TensorObj := ⟨3, [2, 3], 1⟩

/-- The VariableNode of the intermediate product t = a * x (its owning
Variable is dead at backward time). -/
def tN : TensorObj := ⟨4, [2, 3], 1⟩

/-- The VariableNode of the output y. -/
def yN : TensorObj := ⟨5, [2, 3], 1⟩

/-- The Variable object y returned by the forward call (a distinct
object from its VariableNode yN). -/
def yV : TensorObj := ⟨6, [2, 3], 1⟩

/-- The model parameter a. -/
def pa : Param := ⟨va, [1, 1, 1, 1, 1, 1]⟩

/-- The model parameter b. -/
def pb : Param := ⟨vb, [0, 0, 0, 0, 0, 0]⟩

/-- The Add invocation t + b, visited first by backward. -/
def addF : FuncInst := ⟨"Add", [.node tN, .var vb true], [yN]⟩

/-- The Mul invocation a * x, visited second by backward. -/
def mulF : FuncInst := ⟨"Mul", [.var va true, .var vx false], [tN]⟩

/-- The y = a * x + b session. -/
def scenarioModel : Model := ⟨[pa, pb], .single yV, [addF, mulF]⟩

/-- A single-node converter of the usual shape: one NodeProto carrying
the operator's class name and the resolved input/output names. -/
def genConv : FuncInst → List Nat → List Nat → List Param → ConvResult :=
  fun f ins outs _ => ⟨[⟨f.name, ins, outs, []⟩], []⟩

/-- A registry supporting exactly Add and Mul. -/
def scenarioReg : Registry :=
  fun s => if s = "Add" ∨ s = "Mul" then some genConv else none

/-- Environment of the scenario export. -/
def scenarioEnv : Env := ⟨scenarioReg, "3.2.0", 3⟩

/-- The scenario call's args: the single input x, in a list. -/
def scenarioArgs : PyVal := .listV [.tensorV vx]

/-- An ambient state in which nothing remains to be changed. -/
def w0 : World := ⟨true, true, []⟩

/-- The scenario export call (no file destination, initializers on). -/
def scenarioOutcome : ExportOutcome :=
  exportModel scenarioEnv scenarioModel scenarioArgs w0 .nofile true
    ("Graph") false

/-- Placeholder ModelProto for extracting a successful result. -/
def emptyModelProto : ModelProto := ⟨⟨[], "", [], [], []⟩, "", "", 0⟩

/-- The ModelProto the scenario export returns. -/
def scenarioMp : ModelProto :=
  scenarioOutcome.result.toOption.getD emptyModelProto

/-- The hook state at the end of the scenario's backward traversal. -/
def scenarioSt : ONNXExportState :=
  (captureTrace scenarioReg (effectiveTrace scenarioModel)
    initState).toOption.getD initState

/-- An operator invocation whose class has no registered converter. -/
def missingF : FuncInst := ⟨"NoConv", [.var ⟨21, [1], 1⟩ false], [⟨22, [1], 1⟩]⟩

/-- A model containing the unsupported operator. -/
def m5 : Model := ⟨[], .single ⟨23, [1], 1⟩, [missingF]⟩

/-- An environment with an empty converter registry. -/
def env5 : Env := ⟨fun _ => none, "3.2.0", 3⟩

/-- A session with a scalar (rank-0) parameter and no captured operators. -/
def pc : Param := ⟨⟨7, [], 1⟩, [42]⟩

/-- The scalar-parameter model. -/
def m7 : Model := ⟨[pc], .single ⟨8, [], 1⟩, []⟩

/-- The ModelProto of the scalar-parameter export. -/
def mp7 : ModelProto :=
  (exportModel env5 m7 (.listV []) w0 .nofile true ("G")
    false).result.toOption.getD emptyModelProto

/-- A converter that returns the same NodeProto twice. -/
def dupConv : FuncInst → List Nat → List Nat → List Param → ConvResult :=
  fun f ins outs _ => ⟨[⟨f.name, ins, outs, []⟩, ⟨f.name, ins, outs, []⟩], []⟩

/-- One invocation whose converter duplicates its node. -/
def dupF : FuncInst := ⟨"Dup", [.var ⟨31, [1], 1⟩ false], [⟨32, [1], 1⟩]⟩

/-- Environment whose registry always answers with the duplicating
converter. -/
def env8 : Env := ⟨fun _ => some dupConv, "3.2.0", 3⟩

/-- The duplicate-producing session. -/
def m8 : Model := ⟨[], .single ⟨33, [1], 1⟩, [dupF]⟩

/-- Hook state at the end of the duplicate-producing traversal. -/
def st8 : ONNXExportState :=
  (captureTrace env8.reg (effectiveTrace m8) initState).toOption.getD initState

/-- The ModelProto of the duplicate-producing export. -/
def mp8 : ModelProto :=
  (exportModel env8 m8 (.listV []) w0 .nofile true ("G")
    false).result.toOption.getD emptyModelProto

/-- The node the duplicating converter returns twice. -/
def dupNode : Node := ⟨"Dup", [31], [32], []⟩

/-- A model whose forward call returns a dict of Variables; its trace is
deliberately non-empty (and even unsupported) to show backward never
runs. -/
def m10 : Model := ⟨[], .dict [("k", ⟨41, [2], 1⟩)], [missingF]⟩

/-! Helper lemmas. -/

theorem exceptOk {α : Type} {r : Except String α} {x : α}
    (h : r.toOption = some x) : r = Except.ok x := by
  cases r with
  | error e => simp [Except.toOption] at h
  | ok a => simp [Except.toOption] at h; rw [h]

/-- The list the source stores into `args` at line 133. -/
def argsListOf : PyVal → List PyVal
  | .listV xs => xs
  | .dictV kvs => [.dictV kvs]
  | .tensorV t => [.tensorV t]
  | .otherV n => [.otherV n]

theorem dispatchForward_ok (v : PyVal) :
    dispatchForward v = .ok (.positional (argsListOf v)) := by
  cases v <;> rfl

theorem mem_dictKeys_dictSet_self (d : List (Nat × TensorObj)) (k : Nat)
    (v : TensorObj) : k ∈ dictKeys (dictSet d k v) := by
  unfold dictSet
  split
  · next h =>
      rcases List.mem_map.mp h with ⟨kv, hkv, hk⟩
      exact List.mem_map.mpr ⟨(k, v), List.mem_map.mpr ⟨kv, hkv, by simp [hk]⟩, rfl⟩
  · simp [dictKeys]

theorem mem_dictKeys_dictSet_mono {d : List (Nat × TensorObj)} {k' : Nat}
    (k : Nat) (v : TensorObj) (h : k' ∈ dictKeys d) :
    k' ∈ dictKeys (dictSet d k v) := by
  unfold dictSet
  split
  · rcases List.mem_map.mp h with ⟨kv, hkv, hk⟩
    by_cases hc : kv.1 = k
    · exact List.mem_map.mpr ⟨(k, v), List.mem_map.mpr ⟨kv, hkv, by simp [hc]⟩,
        by simp [← hk, hc]⟩
    · exact List.mem_map.mpr ⟨kv, List.mem_map.mpr ⟨kv, hkv, by simp [hc]⟩, hk⟩
  · simp [dictKeys] at h ⊢
    exact Or.inl h

theorem mem_dictKeys_dictSetIfAbsent_self (d : List (Nat × TensorObj))
    (k : Nat) (v : TensorObj) : k ∈ dictKeys (dictSetIfAbsent d k v) := by
  unfold dictSetIfAbsent
  split
  · assumption
  · simp [dictKeys]

theorem mem_dictKeys_dictSetIfAbsent_mono {d : List (Nat × TensorObj)}
    {k' : Nat} (k : Nat) (v : TensorObj) (h : k' ∈ dictKeys d) :
    k' ∈ dictKeys (dictSetIfAbsent d k v) := by
  unfold dictSetIfAbsent
  split
  · exact h
  · simp [dictKeys] at h ⊢
    exact Or.inl h

theorem dictSet_kv {d : List (Nat × TensorObj)} {k : Nat} {v : TensorObj}
    (hd : ∀ kv ∈ d, kv.1 = kv.2.oid) (hkv : k = v.oid) :
    ∀ kv ∈ dictSet d k v, kv.1 = kv.2.oid := by
  intro kv hmem
  unfold dictSet at hmem
  split at hmem
  · rcases List.mem_map.mp hmem with ⟨kv0, hkv0, hup⟩
    by_cases hc : kv0.1 = k
    · simp [hc] at hup
      rw [← hup]
      exact hkv
    · simp [hc] at hup
      rw [← hup]
      exact hd kv0 hkv0
  · rcases List.mem_append.mp hmem with h | h
    · exact hd kv h
    · simp at h
      rw [h]
      exact hkv

theorem dictSetIfAbsent_kv {d : List (Nat × TensorObj)} {k : Nat}
    {v : TensorObj} (hd : ∀ kv ∈ d, kv.1 = kv.2.oid) (hkv : k = v.oid) :
    ∀ kv ∈ dictSetIfAbsent d k v, kv.1 = kv.2.oid := by
  intro kv hmem
  unfold dictSetIfAbsent at hmem
  split at hmem
  · exact hd kv hmem
  · rcases List.mem_append.mp hmem with h | h
    · exact hd kv h
    · simp at h
      rw [h]
      exact hkv

theorem dictSet_keys_src {d : List (Nat × TensorObj)} {k k' : Nat}
    {v : TensorObj} (h : k' ∈ dictKeys (dictSet d k v)) :
    k' ∈ dictKeys d ∨ k' = k := by
  unfold dictSet at h
  split at h
  · rcases List.mem_map.mp h with ⟨kv, hkv, hk⟩
    rcases List.mem_map.mp hkv with ⟨kv0, hkv0, hup⟩
    by_cases hc : kv0.1 = k
    · simp [hc] at hup
      right
      rw [← hk, ← hup]
    · simp [hc] at hup
      left
      exact List.mem_map.mpr ⟨kv0, hkv0, by rw [hup, hk]⟩
  · simp [dictKeys] at h ⊢
    exact h

theorem dictSetIfAbsent_keys_src {d : List (Nat × TensorObj)} {k k' : Nat}
    {v : TensorObj} (h : k' ∈ dictKeys (dictSetIfAbsent d k v)) :
    k' ∈ dictKeys d ∨ k' = k := by
  unfold dictSetIfAbsent at h
  split at h
  · exact Or.inl h
  · simp [dictKeys] at h ⊢
    exact h

theorem processInputs_fst (slots : List InSlot) (acc : List Nat)
    (d : List (Nat × TensorObj)) :
    (processInputs slots acc d).1 = acc ++ slots.map slotName := by
  induction slots generalizing acc d with
  | nil => simp [processInputs]
  | cons s rest ih =>
      cases s with
      | node t => simp [processInputs, ih, slotName, slotObj]
      | var t b =>
          cases b <;> simp [processInputs, ih, slotName, slotObj]

theorem processInputs_keys_mono (slots : List InSlot) (acc : List Nat)
    (d : List (Nat × TensorObj)) {k : Nat} (h : k ∈ dictKeys d) :
    k ∈ dictKeys (processInputs slots acc d).2 := by
  induction slots generalizing acc d with
  | nil => simpa [processInputs] using h
  | cons s rest ih =>
      cases s with
      | node t =>
          exact ih _ _ (mem_dictKeys_dictSetIfAbsent_mono _ _ h)
      | var t b =>
          cases b with
          | false => exact ih _ _ (mem_dictKeys_dictSet_mono _ _ h)
          | true => exact ih _ _ h

theorem processInputs_registers (slots : List InSlot) (acc : List Nat)
    (d : List (Nat × TensorObj)) {s : InSlot} (hs : s ∈ slots)
    (hp : isParamSlot s = false) :
    slotName s ∈ dictKeys (processInputs slots acc d).2 := by
  induction slots generalizing acc d with
  | nil => cases hs
  | cons s0 rest ih =>
      rcases List.mem_cons.mp hs with rfl | hmem
      · cases s with
        | node t =>
            simp only [processInputs]
            exact processInputs_keys_mono _ _ _
              (mem_dictKeys_dictSetIfAbsent_self _ _ _)
        | var t b =>
            cases b with
            | false =>
                simp only [processInputs]
                exact processInputs_keys_mono _ _ _
                  (mem_dictKeys_dictSet_self _ _ _)
            | true => cases hp
      · cases s0 with
        | node t =>
            simp only [processInputs]
            exact ih _ _ hmem
        | var t b =>
            cases b <;> simp only [processInputs] <;> exact ih _ _ hmem

theorem processInputs_kv (slots : List InSlot) (acc : List Nat)
    (d : List (Nat × TensorObj)) (hd : ∀ kv ∈ d, kv.1 = kv.2.oid) :
    ∀ kv ∈ (processInputs slots acc d).2, kv.1 = kv.2.oid := by
  induction slots generalizing acc d with
  | nil => simpa [processInputs] using hd
  | cons s rest ih =>
      cases s with
      | node t => exact ih _ _ (dictSetIfAbsent_kv hd rfl)
      | var t b =>
          cases b with
          | false => exact ih _ _ (dictSet_kv hd rfl)
          | true => exact ih _ _ hd

theorem processInputs_keys_src (slots : List InSlot) (acc : List Nat)
    (d : List (Nat × TensorObj)) {k : Nat}
    (h : k ∈ dictKeys (processInputs slots acc d).2) :
    k ∈ dictKeys d ∨
      ∃ s ∈ slots, isParamSlot s = false ∧ slotName s = k := by
  induction slots generalizing acc d with
  | nil => exact Or.inl (by simpa [processInputs] using h)
  | cons s0 rest ih =>
      cases s0 with
      | node t =>
          rcases ih (acc ++ [t.oid]) _ h with h' | ⟨s, hs, hps, hn⟩
          · rcases dictSetIfAbsent_keys_src h' with h'' | rfl
            · exact Or.inl h''
            · exact Or.inr ⟨.node t, by simp, rfl, rfl⟩
          · exact Or.inr ⟨s, List.mem_cons_of_mem _ hs, hps, hn⟩
      | var t b =>
          cases b with
          | false =>
              rcases ih (acc ++ [t.oid]) _ h with h' | ⟨s, hs, hps, hn⟩
              · rcases dictSet_keys_src h' with h'' | rfl
                · exact Or.inl h''
                · exact Or.inr ⟨.var t false, by simp, rfl, rfl⟩
              · exact Or.inr ⟨s, List.mem_cons_of_mem _ hs, hps, hn⟩
          | true =>
              rcases ih (acc ++ [t.oid]) _ h with h' | ⟨s, hs, hps, hn⟩
              · exact Or.inl h'
              · exact Or.inr ⟨s, List.mem_cons_of_mem _ hs, hps, hn⟩

theorem appendDedup_subset_l {g ns : List Node} :
    ∀ n ∈ g, n ∈ appendDedup g ns := by
  induction ns generalizing g with
  | nil => intro n hn; simpa [appendDedup] using hn
  | cons m rest ih =>
      intro n hn
      unfold appendDedup
      apply ih
      split
      · exact hn
      · exact List.mem_append_left _ hn

theorem appendDedup_mem_r {g ns : List Node} :
    ∀ n ∈ ns, n ∈ appendDedup g ns := by
  induction ns generalizing g with
  | nil => intro n hn; cases hn
  | cons m rest ih =>
      intro n hn
      rcases List.mem_cons.mp hn with rfl | hmem
      · unfold appendDedup
        apply appendDedup_subset_l
        split
        · assumption
        · simp
      · unfold appendDedup
        exact ih n hmem

theorem appendDedup_src {g ns : List Node} :
    ∀ n ∈ appendDedup g ns, n ∈ g ∨ n ∈ ns := by
  induction ns generalizing g with
  | nil => intro n hn; exact Or.inl (by simpa [appendDedup] using hn)
  | cons m rest ih =>
      intro n hn
      unfold appendDedup at hn
      rcases ih n hn with h | h
      · split at h
        · exact Or.inl h
        · rcases List.mem_append.mp h with h' | h'
          · exact Or.inl h'
          · simp at h'
            exact Or.inr (by simp [h'])
      · exact Or.inr (List.mem_cons_of_mem _ h)

theorem appendDedup_nodup {g ns : List Node} (h : g.Nodup) :
    (appendDedup g ns).Nodup := by
  induction ns generalizing g with
  | nil => simpa [appendDedup] using h
  | cons m rest ih =>
      unfold appendDedup
      apply ih
      split
      · exact h
      · next hnm =>
          simpa [List.nodup_append] using ⟨h, hnm⟩

/-- The declared-input coverage invariant of a hook session: every input
name of every node accumulated so far is a registered network-input key,
a model-parameter identity, or an additional-parameter identity; and the
network_inputs dict maps every key to an object carrying that identity. -/
def GoodState (pids : List Nat) (st : ONNXExportState) : Prop :=
  (∀ kv ∈ st.network_inputs, kv.1 = kv.2.oid) ∧
  (∀ node ∈ st.graph, ∀ x ∈ node.inputs,
      x ∈ dictKeys st.network_inputs ∨ x ∈ pids ∨
        x ∈ st.additional_parameters.map (fun p => p.var.oid))

theorem backward_postprocess_good {reg : Registry} {pids : List Nat}
    {st st' : ONNXExportState} {f : FuncInst}
    (hconv : ∀ conv, reg f.name = some conv → ∀ ins outs ps,
      ∀ node ∈ (conv f ins outs ps).nodes, ∀ x ∈ node.inputs,
        x ∈ ins ∨ x ∈ (conv f ins outs ps).newParams.map (fun p => p.var.oid))
    (hparam : ∀ s ∈ f.inputs, isParamSlot s = true → slotName s ∈ pids)
    (hst : GoodState pids st)
    (h : backward_postprocess reg st f = .ok st') : GoodState pids st' := by
  unfold backward_postprocess at h
  unfold create_node at h
  cases hreg : reg f.name with
  | none => rw [hreg] at h; cases h
  | some conv =>
      rw [hreg] at h
      simp only [Except.ok.injEq] at h
      subst h
      constructor
      · exact processInputs_kv _ _ _ hst.1
      · intro node hnode x hx
        rcases appendDedup_src node hnode with hold | hnew
        · rcases hst.2 node hold x hx with hk | hp | ha
          · exact Or.inl (processInputs_keys_mono _ _ _ hk)
          · exact Or.inr (Or.inl hp)
          · refine Or.inr (Or.inr ?_)
            simp only [List.map_append, List.mem_append]
            exact Or.inl ha
        · rcases hconv conv hreg _ _ _ node hnew x hx with hin | hnp
          · rw [processInputs_fst, List.nil_append] at hin
            rcases List.mem_map.mp hin with ⟨s, hs, hsn⟩
            cases hps : isParamSlot s with
            | true => exact Or.inr (Or.inl (hsn ▸ hparam s hs hps))
            | false =>
                exact Or.inl (hsn ▸ processInputs_registers _ _ _ hs hps)
          · refine Or.inr (Or.inr ?_)
            simp only [List.map_append, List.mem_append]
            exact Or.inr hnp

theorem captureTrace_good {reg : Registry} {pids : List Nat}
    {fs : List FuncInst} {st st' : ONNXExportState}
    (hconv : ∀ f ∈ fs, ∀ conv, reg f.name = some conv → ∀ ins outs ps,
      ∀ node ∈ (conv f ins outs ps).nodes, ∀ x ∈ node.inputs,
        x ∈ ins ∨ x ∈ (conv f ins outs ps).newParams.map (fun p => p.var.oid))
    (hparam : ∀ f ∈ fs, ∀ s ∈ f.inputs,
      isParamSlot s = true → slotName s ∈ pids)
    (hst : GoodState pids st)
    (h : captureTrace reg fs st = .ok st') : GoodState pids st' := by
  induction fs generalizing st with
  | nil =>
      unfold captureTrace at h
      simp only [Except.ok.injEq] at h
      exact h ▸ hst
  | cons f rest ih =>
      unfold captureTrace at h
      cases hbp : backward_postprocess reg st f with
      | error e => rw [hbp] at h; cases h
      | ok st2 =>
          rw [hbp] at h
          have hgood2 := backward_postprocess_good
            (hconv f (by simp)) (hparam f (by simp)) hst hbp
          exact ih (fun g hg => hconv g (List.mem_cons_of_mem _ hg))
            (fun g hg => hparam g (List.mem_cons_of_mem _ hg)) hgood2 h

theorem captureTrace_kv {reg : Registry} {fs : List FuncInst}
    {st st' : ONNXExportState} (h : captureTrace reg fs st = .ok st')
    (h0 : ∀ kv ∈ st.network_inputs, kv.1 = kv.2.oid) :
    ∀ kv ∈ st'.network_inputs, kv.1 = kv.2.oid := by
  induction fs generalizing st with
  | nil =>
      unfold captureTrace at h
      simp only [Except.ok.injEq] at h
      exact h ▸ h0
  | cons f rest ih =>
      unfold captureTrace at h
      cases hbp : backward_postprocess reg st f with
      | error e => rw [hbp] at h; cases h
      | ok st2 =>
          rw [hbp] at h
          refine ih h ?_
          unfold backward_postprocess at hbp
          unfold create_node at hbp
          cases hreg : reg f.name with
          | none => rw [hreg] at hbp; cases hbp
          | some conv =>
              rw [hreg] at hbp
              simp only [Except.ok.injEq] at hbp
              subst hbp
              exact processInputs_kv _ _ _ h0

theorem captureTrace_keys_src {reg : Registry} {fs : List FuncInst}
    {st st' : ONNXExportState} (h : captureTrace reg fs st = .ok st')
    {k : Nat} (hk : k ∈ dictKeys st'.network_inputs) :
    k ∈ dictKeys st.network_inputs ∨
      ∃ f ∈ fs, ∃ s ∈ f.inputs, isParamSlot s = false ∧ slotName s = k := by
  induction fs generalizing st with
  | nil =>
      unfold captureTrace at h
      simp only [Except.ok.injEq] at h
      exact Or.inl (h ▸ hk)
  | cons f rest ih =>
      unfold captureTrace at h
      cases hbp : backward_postprocess reg st f with
      | error e => rw [hbp] at h; cases h
      | ok st2 =>
          rw [hbp] at h
          rcases ih h with hk2 | ⟨g, hg, hs⟩
          · unfold backward_postprocess at hbp
            unfold create_node at hbp
            cases hreg : reg f.name with
            | none => rw [hreg] at hbp; cases hbp
            | some conv =>
                rw [hreg] at hbp
                simp only [Except.ok.injEq] at hbp
                subst hbp
                rcases processInputs_keys_src _ _ _ hk2 with h0 | ⟨s, hs, hps, hn⟩
                · exact Or.inl h0
                · exact Or.inr ⟨f, by simp, s, hs, hps, hn⟩
          · exact Or.inr ⟨g, List.mem_cons_of_mem _ hg, hs⟩

theorem captureTrace_dedup {reg : Registry} {fs : List FuncInst}
    {st st' : ONNXExportState} (h : captureTrace reg fs st = .ok st')
    (hg : st.graph.Nodup) (hp : ∀ n ∈ st.produced, n ∈ st.graph) :
    st'.graph.Nodup ∧ ∀ n ∈ st'.produced, n ∈ st'.graph := by
  induction fs generalizing st with
  | nil =>
      unfold captureTrace at h
      simp only [Except.ok.injEq] at h
      exact h ▸ ⟨hg, hp⟩
  | cons f rest ih =>
      unfold captureTrace at h
      cases hbp : backward_postprocess reg st f with
      | error e => rw [hbp] at h; cases h
      | ok st2 =>
          rw [hbp] at h
          unfold backward_postprocess at hbp
          unfold create_node at hbp
          cases hreg : reg f.name with
          | none => rw [hreg] at hbp; cases hbp
          | some conv =>
              rw [hreg] at hbp
              simp only [Except.ok.injEq] at hbp
              subst hbp
              refine ih h (appendDedup_nodup hg) ?_
              intro n hn
              simp only [List.mem_append] at hn
              rcases hn with hn | hn
              · exact appendDedup_subset_l n (hp n hn)
              · exact appendDedup_mem_r n hn

/-- The first traversed function whose class name has no converter. -/
def firstMissing (reg : Registry) : List FuncInst → Option FuncInst
  | [] => none
  | f :: fs =>
    match reg f.name with
    | none => some f
    | some _ => firstMissing reg fs

theorem firstMissing_none {reg : Registry} {fs : List FuncInst}
    {g : FuncInst} (h : firstMissing reg fs = some g) : reg g.name = none := by
  induction fs with
  | nil => cases h
  | cons f rest ih =>
      unfold firstMissing at h
      cases hreg : reg f.name with
      | none =>
          rw [hreg] at h
          simp only [Option.some.injEq] at h
          exact h ▸ hreg
      | some conv => rw [hreg] at h; exact ih h

theorem firstMissing_capture {reg : Registry} {fs : List FuncInst}
    {g : FuncInst} (h : firstMissing reg fs = some g) :
    ∀ st, captureTrace reg fs st = .error (g.name ++ " is not supported.") := by
  induction fs with
  | nil => cases h
  | cons f rest ih =>
      intro st
      unfold firstMissing at h
      unfold captureTrace
      unfold backward_postprocess
      unfold create_node
      cases hreg : reg f.name with
      | none =>
          rw [hreg] at h
          simp only [Option.some.injEq] at h
          subst h
          rfl
      | some conv =>
          rw [hreg] at h
          exact ih h _

/-- Every (object, assigned identity) resolution event of one session:
parameters (convert_parameter and lines 150-154 use id(param)), the
input and output slots of every traversed function (lines 70-84), and
the declared outputs (line 191). -/
def funcEncounters (f : FuncInst) : List (TensorObj × Nat) :=
  f.inputs.map (fun s => (slotObj s, slotName s))
    ++ f.outputs.map (fun o => (o, o.oid))

/-- All resolution events of a session, in pipeline order. -/
def sessionEncounters (m : Model) : List (TensorObj × Nat) :=
  m.params.map (fun p => (p.var, p.var.oid))
    ++ (effectiveTrace m).foldr (fun f acc => funcEncounters f ++ acc) []
    ++ (outputList m.forwardOutputs).map (fun v => (v, v.oid))

theorem traceEncounters_snd (fs : List FuncInst) :
    ∀ e ∈ fs.foldr (fun f acc => funcEncounters f ++ acc) [], e.2 = e.1.oid := by
  induction fs with
  | nil => intro e he; cases he
  | cons f rest ih =>
      intro e he
      simp only [List.foldr_cons, List.mem_append] at he
      rcases he with he | he
      · unfold funcEncounters at he
        rcases List.mem_append.mp he with he | he
        · rcases List.mem_map.mp he with ⟨s, _, rfl⟩
          rfl
        · rcases List.mem_map.mp he with ⟨o, _, rfl⟩
          rfl
      · exact ih e he

theorem sessionEncounters_snd {m : Model} :
    ∀ e ∈ sessionEncounters m, e.2 = e.1.oid := by
  intro e he
  unfold sessionEncounters at he
  rcases List.mem_append.mp he with he | he
  · rcases List.mem_append.mp he with he | he
    · rcases List.mem_map.mp he with ⟨p, _, rfl⟩
      rfl
    · exact traceEncounters_snd _ e he
  · rcases List.mem_map.mp he with ⟨v, _, rfl⟩
    rfl

theorem exportModel_result (env : Env) (m : Model) (args : PyVal) (w : World)
    (dest : Dest) (ep : Bool) (gn : String) (sv : Bool) :
    (exportModel env m args w dest ep gn sv).result =
      exportResult env m args ep gn := rfl

theorem exportResult_ok_elim {env : Env} {m : Model} {args : PyVal}
    {ep : Bool} {gn : String} {mp : ModelProto}
    (hok : exportResult env m args ep gn = .ok mp) :
    ∃ st, captureTrace env.reg (effectiveTrace m) initState = .ok st ∧
      mp = assemble env m ep gn st := by
  unfold exportResult at hok
  rw [dispatchForward_ok] at hok
  cases hcap : captureTrace env.reg (effectiveTrace m) initState with
  | error e => rw [hcap] at hok; cases hok
  | ok st =>
      rw [hcap] at hok
      simp only [Except.ok.injEq] at hok
      exact ⟨st, rfl, hok.symm⟩

/-- Topological validity of an assembled graph, exactly as the spec states
it: every input identity of every node is either a declared graph input or
an output identity of a strictly earlier node of the sequence. -/
def topologicallyValid (g : Graph) : Prop :=
  ∀ i, ∀ hi : i < g.nodes.length, ∀ x ∈ (g.nodes.get ⟨i, hi⟩).inputs,
    x ∈ g.inputs.map ValueInfo.name ∨
      ∃ j, ∃ hj : j < i, x ∈ (g.nodes.get ⟨j, Nat.lt_trans hj hi⟩).outputs

theorem assemble_input_names (env : Env) (m : Model) (ep : Bool)
    (gn : String) (st : ONNXExportState) :
    (assemble env m ep gn st).graph.inputs.map ValueInfo.name =
      m.params.map (fun p => p.var.oid)
        ++ st.additional_parameters.map (fun p => p.var.oid)
        ++ st.network_inputs.map (fun kv => kv.2.oid) := by
  simp only [assemble, List.map_append, List.map_map, List.append_assoc]
  rfl

/-! The claim theorems. -/

/-- C1: in every export session whose converters only reference the
resolved input names and their own created parameters, and whose live
Parameter inputs all belong to the model, the assembled Graph Descriptor
is topologically valid: every input identity of every emitted node is a
declared graph input or an output of a strictly earlier node.  (In fact
the source declares every resolved non-Parameter input as a network
input, so the first disjunct always holds.) -/
theorem c1_topological_validity (env : Env) (m : Model) (args : PyVal)
    (w : World) (dest : Dest) (ep : Bool) (gn : String) (sv : Bool)
    (mp : ModelProto)
    (hconv : ∀ f ∈ effectiveTrace m, ∀ conv, env.reg f.name = some conv →
      ∀ ins outs ps, ∀ node ∈ (conv f ins outs ps).nodes, ∀ x ∈ node.inputs,
        x ∈ ins ∨ x ∈ (conv f ins outs ps).newParams.map (fun p => p.var.oid))
    (hparam : ∀ f ∈ effectiveTrace m, ∀ s ∈ f.inputs,
      isParamSlot s = true → slotName s ∈ m.params.map (fun p => p.var.oid))
    (hok : (exportModel env m args w dest ep gn sv).result = .ok mp) :
    topologicallyValid mp.graph := by
  rw [exportModel_result] at hok
  rcases exportResult_ok_elim hok with ⟨st, hcap, rfl⟩
  have hgood : GoodState (m.params.map (fun p => p.var.oid)) st :=
    captureTrace_good hconv hparam
      ⟨by simp [initState], by simp [initState]⟩ hcap
  intro i hi x hx
  left
  have hmem : (assemble env m ep gn st).graph.nodes.get ⟨i, hi⟩ ∈ st.graph :=
    List.mem_reverse.mp (List.get_mem _ i hi)
  rw [assemble_input_names]
  rcases hgood.2 _ hmem x hx with hk | hp | ha
  · rcases List.mem_map.mp hk with ⟨kv, hkv, hx1⟩
    refine List.mem_append_right _ (List.mem_map.mpr ⟨kv, hkv, ?_⟩)
    rw [← hx1]
    exact (hgood.1 kv hkv).symm
  · exact List.mem_append_left _ (List.mem_append_left _ hp)
  · exact List.mem_append_left _ (List.mem_append_right _ ha)

/-- C1 witness: the y = a * x + b session satisfies the hypotheses, and
its assembled graph is topologically valid. -/
theorem c1_witness : topologicallyValid scenarioMp.graph := by
  have hgen : ∀ (s : String) conv', scenarioReg s = some conv' →
      conv' = genConv := by
    intro s conv' hc
    unfold scenarioReg at hc
    split at hc
    · exact (Option.some.injEq _ _ ▸ hc).symm
    · cases hc
  refine c1_topological_validity scenarioEnv scenarioModel scenarioArgs w0
    .nofile true ("Graph") false scenarioMp ?_ (by decide)
    (exceptOk (by decide))
  intro f _ conv hc ins outs ps node hn x hx
  rw [hgen _ _ hc] at hn
  simp only [genConv, List.mem_singleton] at hn
  subst hn
  exact Or.inl hx

/-- C2 counterexample: the y = a * x + b export declares 4 graph inputs,
not the 3 the claim states — the intermediate product's VariableNode is
registered as a network input besides a, b and x. -/
theorem c2_counterexample : (scenarioMp.graph.inputs.length = 3) = False :=
  eq_false (by decide)

/-- C2 amended: the y = a * x + b export yields exactly 2 nodes (multiply
then add, in forward order), exactly 4 declared inputs (a, b, the
garbage-collected intermediate product t — registered as a network input —
and x, in that order), exactly 1 declared output (y with shape [2,3]),
and exactly 2 initializers (a, b). -/
theorem c2_scenario_amended :
    scenarioOutcome.result = Except.ok scenarioMp ∧
    scenarioMp.graph.nodes =
      [⟨"Mul", [va.oid, vx.oid], [tN.oid], []⟩,
       ⟨"Add", [tN.oid, vb.oid], [yN.oid], []⟩] ∧
    scenarioMp.graph.inputs.map ValueInfo.name =
      [va.oid, vb.oid, tN.oid, vx.oid] ∧
    scenarioMp.graph.inputs.length = 4 ∧
    scenarioMp.graph.outputs = [⟨yV.oid, 1, [2, 3]⟩] ∧
    scenarioMp.graph.initializer =
      [convert_parameter pa, convert_parameter pb] := by
  refine ⟨exceptOk (by decide), by decide, by decide, by decide, by decide,
    by decide⟩

/-- C3 counterexample: in the y = a * x + b session the Network Input
discovery set contains the intermediate product's identity, which IS the
output of a captured operator node (the multiply), so not every
registered identity is a true boundary input. -/
theorem c3_counterexample :
    (∀ kv ∈ scenarioSt.network_inputs, ∀ node ∈ scenarioSt.graph,
      kv.1 ∉ node.outputs) = False :=
  eq_false (by decide)

/-- C3 amended: every identity registered in the Network Input discovery
set is the resolved identity of a non-Parameter input slot of at least
one observed operator invocation (so it is consumed by an observed
operator and was not classified as a Parameter when registered), but it
may additionally be the output of a captured operator node (a dead or
user-retained intermediate is registered too). -/
theorem c3_network_inputs_amended (reg : Registry) (fs : List FuncInst)
    (st : ONNXExportState) (hcap : captureTrace reg fs initState = .ok st) :
    ∀ kv ∈ st.network_inputs, kv.1 = kv.2.oid ∧
      ∃ f ∈ fs, ∃ s ∈ f.inputs, isParamSlot s = false ∧ slotName s = kv.1 := by
  intro kv hkv
  refine ⟨captureTrace_kv hcap (by simp [initState]) kv hkv, ?_⟩
  have hk : kv.1 ∈ dictKeys st.network_inputs :=
    List.mem_map.mpr ⟨kv, hkv, rfl⟩
  rcases captureTrace_keys_src hcap hk with h0 | h
  · simp [initState, dictKeys] at h0
  · exact h

/-- C3 witness: in the y = a * x + b session the registered identity of
the intermediate product is indeed the resolved name of a non-Parameter
input slot of an observed invocation. -/
theorem c3_witness :
    (tN.oid, tN).1 = (tN.oid, tN).2.oid ∧
      ∃ f ∈ effectiveTrace scenarioModel, ∃ s ∈ f.inputs,
        isParamSlot s = false ∧ slotName s = (tN.oid, tN).1 :=
  c3_network_inputs_amended scenarioReg (effectiveTrace scenarioModel)
    scenarioSt (exceptOk (by decide)) (tN.oid, tN) (by decide)

/-- C4: the args-type guard is dead code.  A non-collection argument (for
example a bare array) is wrapped into a one-element positional list by
line 133 before the type check of lines 139-146 runs, so the forward
dispatch always succeeds positionally and the ValueError of lines 143-146
(the spec's InvalidArgumentError) is unreachable — for every possible
args value the dispatch returns a positional call. -/
theorem c4_invalid_args_never_raised :
    dispatchForward (PyVal.otherV 0) =
      .ok (.positional [PyVal.otherV 0]) ∧
    dispatchForward (PyVal.dictV []) =
      .ok (.positional [PyVal.dictV []]) ∧
    ∀ v, dispatchForward v = .ok (.positional (argsListOf v)) :=
  ⟨rfl, rfl, dispatchForward_ok⟩

theorem exportModel_writes (env : Env) (m : Model) (args : PyVal) (w : World)
    (dest : Dest) (ep : Bool) (gn : String) (sv : Bool) :
    (exportModel env m args w dest ep gn sv).writes =
      match exportResult env m args ep gn with
      | .ok _ => writesFor dest sv
      | .error _ => [] := rfl

/-- C5: when the traversal contains an operator kind with no registered
converter, export raises the unsupported-operator ValueError naming that
kind (the first such kind reached), aborting mid-traversal, and no file
is written even though a destination path was supplied. -/
theorem c5_unsupported_operator_fatal (env : Env) (m : Model) (args : PyVal)
    (w : World) (p : String) (ep : Bool) (gn : String) (sv : Bool)
    (g : FuncInst)
    (h : firstMissing env.reg (effectiveTrace m) = some g) :
    env.reg g.name = none ∧
    (exportModel env m args w (Dest.path p) ep gn sv).result =
      .error (g.name ++ " is not supported.") ∧
    (exportModel env m args w (Dest.path p) ep gn sv).writes = [] := by
  have hres : exportResult env m args ep gn =
      .error (g.name ++ " is not supported.") := by
    unfold exportResult
    rw [dispatchForward_ok, firstMissing_capture h initState]
  refine ⟨firstMissing_none h, ?_, ?_⟩
  · rw [exportModel_result, hres]
  · rw [exportModel_writes, hres]

/-- C5 witness: a one-operator model with an empty registry. -/
theorem c5_witness :
    firstMissing env5.reg (effectiveTrace m5) = some missingF ∧
    (env5.reg missingF.name = none ∧
     (exportModel env5 m5 (.listV []) w0 (Dest.path ("model.onnx")) true
        ("G") false).result = .error (missingF.name ++ " is not supported.") ∧
     (exportModel env5 m5 (.listV []) w0 (Dest.path ("model.onnx")) true
        ("G") false).writes = []) :=
  ⟨rfl, c5_unsupported_operator_fatal env5 m5 (.listV []) w0 ("model.onnx")
    true ("G") false missingF rfl⟩

/-- C6: the identity assignment of one session is stable and
collision-free on objects.  Every resolution event assigns an object the
identity str(id(object)); hence two encounters of the same object always
yield the same identity, and — given CPython's guarantee that id is
injective on simultaneously-live objects (hypothesis hinj) — two
encounters with the same identity are encounters of the same object. -/
theorem c6_identity_management (m : Model)
    (hinj : ∀ e1 ∈ sessionEncounters m, ∀ e2 ∈ sessionEncounters m,
      e1.1.oid = e2.1.oid → e1.1 = e2.1) :
    ∀ e1 ∈ sessionEncounters m, ∀ e2 ∈ sessionEncounters m,
      (e1.1 = e2.1 → e1.2 = e2.2) ∧ (e1.2 = e2.2 → e1.1 = e2.1) := by
  intro e1 h1 e2 h2
  constructor
  · intro h
    rw [sessionEncounters_snd e1 h1, sessionEncounters_snd e2 h2, h]
  · intro h
    apply hinj e1 h1 e2 h2
    rw [← sessionEncounters_snd e1 h1, ← sessionEncounters_snd e2 h2]
    exact h

/-- C6 witness: the y = a * x + b session's encounters (where the
Parameter a is encountered both as a model parameter and as an input slot
of the multiply). -/
theorem c6_witness :
    ((va, va.oid).1 = (vx, vx.oid).1 → (va, va.oid).2 = (vx, vx.oid).2) ∧
    ((va, va.oid).2 = (vx, vx.oid).2 → (va, va.oid).1 = (vx, vx.oid).1) :=
  c6_identity_management scenarioModel (by decide) (va, va.oid) (by decide)
    (vx, vx.oid) (by decide)

/-- C7: a rank-0 Parameter is declared with shape [1] both in its input
metadata entry and in its initializer tensor of the exported artifact,
and the shape normalization is idempotent. -/
theorem c7_scalar_normalization (env : Env) (m : Model) (args : PyVal)
    (w : World) (dest : Dest) (gn : String) (sv : Bool) (p : Param)
    (mp : ModelProto)
    (hok : (exportModel env m args w dest true gn sv).result = .ok mp)
    (hp : p ∈ m.params) (hs : p.var.shape = []) :
    convert_parameter p ∈ mp.graph.initializer ∧
    (convert_parameter p).dims = [1] ∧
    paramValueInfo p ∈ mp.graph.inputs ∧
    (paramValueInfo p).shape = [1] ∧
    ∀ s, normalizeShape (normalizeShape s) = normalizeShape s := by
  rw [exportModel_result] at hok
  rcases exportResult_ok_elim hok with ⟨st, hcap, rfl⟩
  refine ⟨?_, ?_, ?_, ?_, ?_⟩
  · exact List.mem_map.mpr ⟨p, List.mem_append_left _ hp, rfl⟩
  · simp [convert_parameter, normalizeShape, hs]
  · exact List.mem_append_left _
      (List.mem_map.mpr ⟨p, List.mem_append_left _ hp, rfl⟩)
  · simp [paramValueInfo, normalizeShape, hs]
  · intro s
    cases s <;> simp [normalizeShape]

/-- C7 witness: the scalar-parameter session. -/
theorem c7_witness :
    pc ∈ m7.params ∧ pc.var.shape = [] ∧
    (convert_parameter pc ∈ mp7.graph.initializer ∧
     (convert_parameter pc).dims = [1] ∧
     paramValueInfo pc ∈ mp7.graph.inputs ∧
     (paramValueInfo pc).shape = [1] ∧
     ∀ s, normalizeShape (normalizeShape s) = normalizeShape s) :=
  ⟨by decide, rfl, c7_scalar_normalization env5 m7 (.listV []) w0 .nofile
    ("G") false pc mp7 (exceptOk (by decide)) (by decide) rfl⟩

/-- C8: each Node Descriptor handed to the graph list during capture —
even one produced more than once — occurs exactly once in the assembled
node sequence. -/
theorem c8_deduplication (env : Env) (m : Model) (args : PyVal) (w : World)
    (dest : Dest) (ep : Bool) (gn : String) (sv : Bool)
    (st : ONNXExportState) (n : Node) (mp : ModelProto)
    (hcap : captureTrace env.reg (effectiveTrace m) initState = .ok st)
    (hdup : 2 ≤ st.produced.count n)
    (hok : (exportModel env m args w dest ep gn sv).result = .ok mp) :
    mp.graph.nodes.count n = 1 := by
  rw [exportModel_result] at hok
  rcases exportResult_ok_elim hok with ⟨st2, hcap2, rfl⟩
  rw [hcap] at hcap2
  have hst : st = st2 := by simpa using hcap2
  subst hst
  have hd := captureTrace_dedup hcap (by simp [initState])
    (by simp [initState])
  have hmem : n ∈ st.produced := by
    by_contra hcon
    rw [List.count_eq_zero_of_not_mem hcon] at hdup
    omega
  show (st.graph.reverse).count n = 1
  rw [List.count_reverse]
  exact List.count_eq_one_of_mem hd.1 (hd.2 n hmem)

/-- C8 witness: a converter that returns the same node twice; the
assembled graph holds it once. -/
theorem c8_witness :
    2 ≤ st8.produced.count dupNode ∧ mp8.graph.nodes.count dupNode = 1 :=
  ⟨by decide, c8_deduplication env8 m8 (.listV []) w0 .nofile true ("G")
    false st8 dupNode mp8 (exceptOk (by decide)) (by decide)
    (exceptOk (by decide))⟩

/-- C9 counterexample: export mutates state outside the session object —
it sets the process-wide chainer.config.enable_backprop flag (and moves
the model to CPU), so the ambient state after an export differs from the
state before it. -/
theorem c9_counterexample :
    ((exportModel scenarioEnv scenarioModel scenarioArgs
        ⟨false, false, [(1, [5])]⟩ .nofile true ("Graph") false).world =
      ⟨false, false, [(1, [5])]⟩) = False :=
  eq_false (by decide)

/-- C9 amended: the export's only effects outside the session object are
setting the process-wide enable_backprop flag to True and moving the
model to CPU; the model's parameter data buffers are never mutated. -/
theorem c9_frame_amended (env : Env) (m : Model) (args : PyVal) (w : World)
    (dest : Dest) (ep : Bool) (gn : String) (sv : Bool) :
    (exportModel env m args w dest ep gn sv).world =
      ⟨true, true, w.paramBuffers⟩ := rfl

/-- C10: a dict-valued forward result skips the backward block entirely,
so the hook observes nothing and the emitted graph has zero nodes, while
the dict's values are still declared as the graph outputs in value
order. -/
theorem c10_dict_outputs (env : Env) (m : Model) (args : PyVal) (w : World)
    (dest : Dest) (ep : Bool) (gn : String) (sv : Bool)
    (kvs : List (String × TensorObj))
    (hout : m.forwardOutputs = Outputs.dict kvs) :
    effectiveTrace m = [] ∧
    ∃ mp, (exportModel env m args w dest ep gn sv).result = .ok mp ∧
      mp.graph.nodes = [] ∧
      mp.graph.outputs = kvs.map (fun kv => outValueInfo kv.2) := by
  have htr : effectiveTrace m = [] := by
    unfold effectiveTrace
    rw [hout]
  refine ⟨htr, assemble env m ep gn initState, ?_, rfl, ?_⟩
  · rw [exportModel_result]
    unfold exportResult
    rw [dispatchForward_ok, htr]
    rfl
  · show (outputList m.forwardOutputs).map outValueInfo =
      kvs.map (fun kv => outValueInfo kv.2)
    rw [hout]
    simp [outputList, List.map_map]

/-- C10 witness: a model returning a dict, with a non-empty (and even
unconvertible) recorded trace that backward never visits. -/
theorem c10_witness :
    m10.forwardOutputs = Outputs.dict [("k", ⟨41, [2], 1⟩)] ∧
    (effectiveTrace m10 = [] ∧
     ∃ mp, (exportModel env5 m10 (.listV []) w0 .nofile true ("G")
        false).result = .ok mp ∧ mp.graph.nodes = [] ∧
       mp.graph.outputs =
         [("k", (⟨41, [2], 1⟩ : TensorObj))].map (fun kv => outValueInfo kv.2)) :=
  ⟨rfl, c10_dict_outputs env5 m10 (.listV []) w0 .nofile true ("G") false
    [("k", ⟨41, [2], 1⟩)] rfl⟩

end OnnxChainer
